import Mathlib

/-!
Verification of the pytransform3d transform algebra and rotation testing
utilities.  Matrices are embedded over the rationals (exact arithmetic in
place of IEEE doubles for the transform algebra), and the rotation-testing
helpers that involve irrational constants (pi, square roots, trigonometric
functions) are embedded over the reals with an abstract positive tolerance
standing for the decimal tolerance of the approximate-array-equality
primitive.
-/

open Matrix

namespace Pytransform

/-- Index type of a homogeneous 4-vector / 4x4 matrix: the three spatial
coordinates plus the homogeneous coordinate. -/
abbrev Hom := Fin 3 ⊕ Unit

abbrev Mat3 := Matrix (Fin 3) (Fin 3) ℚ

abbrev Mat4 := Matrix Hom Hom ℚ

abbrev Vec3 := Fin 3 → ℚ

abbrev Vec4 := Hom → ℚ

/-- A 3-vector as a 3x1 column matrix. -/
def colV (p : Vec3) : Matrix (Fin 3) Unit ℚ := fun i _ => p i

/-- Modelled from the spec: `transform_from(R, p)` from the missing module
pytransform.transformations builds the homogeneous transform
`[[R, p], [0, 0, 0, 1]]` from a 3x3 rotation matrix and a 3-vector. -/
def transform_from (R : Mat3) (p : Vec3) : Mat4 :=
  Matrix.fromBlocks R (colV p) 0 1

/-- Modelled from the spec: `invert_transform` from the missing module
pytransform.transformations extracts the rotation block R and the
translation p and returns the transform with rotation block Rᵀ and
translation -Rᵀ·p (rather than a general matrix inverse). -/
def invert_transform (M : Mat4) : Mat4 :=
  Matrix.fromBlocks (M.toBlocks₁₁)ᵀ (-((M.toBlocks₁₁)ᵀ * M.toBlocks₁₂)) 0 1

/-- Modelled from the spec: `concat(A2B, B2C)` from the missing module
pytransform.transformations is the matrix product `B2C @ A2B`. -/
def concat (A2B B2C : Mat4) : Mat4 := B2C * A2B

/-- Modelled from the spec: applying a homogeneous transform to a single
homogeneous 4-vector is the matrix-vector product (the single-vector case
of the missing `transform`). -/
def transformPt (A2B : Mat4) (p : Vec4) : Vec4 := A2B.mulVec p

lemma colV_mulVec (M : Mat3) (p : Vec3) : colV (M.mulVec p) = M * colV p := by
  ext i j
  simp [colV, Matrix.mul_apply, Matrix.mulVec, Matrix.dotProduct]

/-- The structure-exploiting inverse is a left inverse of the transform it
inverts, whenever the rotation block is orthogonal. -/
lemma invert_transform_mul (R : Mat3) (p : Vec3) (h : R * Rᵀ = 1) :
    invert_transform (transform_from R p) * transform_from R p = 1 := by
  have hT : Rᵀ * R = 1 := Matrix.mul_eq_one_comm.mp h
  simp only [invert_transform, transform_from, Matrix.toBlocks_fromBlocks₁₁,
    Matrix.toBlocks_fromBlocks₁₂, Matrix.fromBlocks_multiply]
  rw [hT]
  simp [Matrix.fromBlocks_one]

lemma colV_add (p q : Vec3) : colV (p + q) = colV p + colV q := by
  ext i j
  simp [colV]

lemma colV_neg (p : Vec3) : colV (-p) = -colV p := by
  ext i j
  simp [colV]

/-- Composing two structured transforms yields the structured transform of the
composed rotation and translation. -/
lemma concat_transform_from (R1 R2 : Mat3) (p1 p2 : Vec3) :
    concat (transform_from R1 p1) (transform_from R2 p2) =
      transform_from (R2 * R1) (R2.mulVec p1 + p2) := by
  simp only [concat, transform_from, Matrix.fromBlocks_multiply]
  rw [colV_add, colV_mulVec]
  simp

/-- C1: for every rotation matrix R and translation p, the
structure-exploiting inverse of `transform_from R p` equals the true matrix
inverse, and its rotation block is Rᵀ with translation -Rᵀ·p. -/
theorem invert_transform_eq_inv (R : Mat3) (p : Vec3) (h : R * Rᵀ = 1) :
    invert_transform (transform_from R p) = (transform_from R p)⁻¹ ∧
    (invert_transform (transform_from R p)).toBlocks₁₁ = Rᵀ ∧
    (invert_transform (transform_from R p)).toBlocks₁₂ = colV (-(Rᵀ.mulVec p)) := by
  refine ⟨(Matrix.inv_eq_left_inv (invert_transform_mul R p h)).symm, ?_, ?_⟩
  · simp [invert_transform, transform_from]
  · simp [invert_transform, transform_from, colV_neg, colV_mulVec]

theorem invert_transform_eq_inv_witness :
    ((1 : Mat3) * (1 : Mat3)ᵀ = 1) ∧
    (invert_transform (transform_from 1 ![1, 2, 3]) =
        (transform_from 1 ![1, 2, 3])⁻¹ ∧
      (invert_transform (transform_from 1 ![1, 2, 3])).toBlocks₁₁ = (1 : Mat3)ᵀ ∧
      (invert_transform (transform_from 1 ![1, 2, 3])).toBlocks₁₂ =
        colV (-((1 : Mat3)ᵀ.mulVec ![1, 2, 3]))) :=
  ⟨by simp, invert_transform_eq_inv 1 ![1, 2, 3] (by simp)⟩

/-- The structure-exploiting inverse of a structured transform is again a
structured transform, with rotation Rᵀ and translation -Rᵀ·p. -/
lemma invert_tf (R : Mat3) (p : Vec3) :
    invert_transform (transform_from R p) = transform_from Rᵀ (-(Rᵀ.mulVec p)) := by
  simp [invert_transform, transform_from, colV_neg, colV_mulVec]

/-- C2: composition transports points in stages, the inverse of a composition
is the reversed composition of the inverses, and either form recovers the
original point from the composed image. -/
theorem concat_correct (R1 R2 : Mat3) (p1 p2 : Vec3) (pA : Vec4)
    (h1 : R1 * R1ᵀ = 1) (h2 : R2 * R2ᵀ = 1) :
    transformPt (concat (transform_from R1 p1) (transform_from R2 p2)) pA =
      transformPt (transform_from R2 p2) (transformPt (transform_from R1 p1) pA) ∧
    invert_transform (concat (transform_from R1 p1) (transform_from R2 p2)) =
      concat (invert_transform (transform_from R2 p2))
        (invert_transform (transform_from R1 p1)) ∧
    transformPt
      (invert_transform (concat (transform_from R1 p1) (transform_from R2 p2)))
      (transformPt (concat (transform_from R1 p1) (transform_from R2 p2)) pA) = pA := by
  have h2T : R2ᵀ * R2 = 1 := Matrix.mul_eq_one_comm.mp h2
  refine ⟨?_, ?_, ?_⟩
  · simp [transformPt, concat, Matrix.mulVec_mulVec]
  · rw [concat_transform_from, invert_tf, invert_tf, invert_tf, concat_transform_from,
      Matrix.transpose_mul]
    simp only [Matrix.mulVec_add, Matrix.mulVec_neg, Matrix.mulVec_mulVec,
      Matrix.mul_assoc, h2T, Matrix.mul_one]
    abel
  · have horth : (R2 * R1) * (R2 * R1)ᵀ = 1 := by
      rw [Matrix.transpose_mul, Matrix.mul_assoc, ← Matrix.mul_assoc R1 R1ᵀ R2ᵀ,
        h1, Matrix.one_mul, h2]
    rw [concat_transform_from]
    simp only [transformPt, Matrix.mulVec_mulVec]
    rw [invert_transform_mul _ _ horth, Matrix.one_mulVec]

theorem concat_correct_witness :
    ((1 : Mat3) * (1 : Mat3)ᵀ = 1) ∧
    transformPt
      (invert_transform (concat (transform_from 1 ![1, 0, 2]) (transform_from 1 ![0, 5, 3])))
      (transformPt (concat (transform_from 1 ![1, 0, 2]) (transform_from 1 ![0, 5, 3]))
        (Sum.elim ![3, -2, 9] 1)) = Sum.elim ![3, -2, 9] 1 :=
  ⟨by simp,
    (concat_correct 1 1 ![1, 0, 2] ![0, 5, 3] (Sum.elim ![3, -2, 9] 1)
      (by simp) (by simp)).2.2⟩

/-- A numeric ndarray: a shape together with the flat row-major data. -/
structure NDArray where
  shape : List Nat
  data : List ℚ
deriving DecidableEq

/-- Dot product of two flat vectors. -/
def dotQ (xs ys : List ℚ) : ℚ := (List.zipWith (fun a b => a * b) xs ys).sum

/-- Split a flat buffer into consecutive rows of length n. -/
def chunkRows (n : Nat) (xs : List ℚ) : List (List ℚ) :=
  if h : xs = [] ∨ n = 0 then [] else xs.take n :: chunkRows n (xs.drop n)
termination_by xs.length
decreasing_by
  push_neg at h
  have h1 : 0 < xs.length := List.length_pos.mpr h.1
  simp only [List.length_drop]
  omega

/-- Matrix-vector product on flat rows. -/
def matVecQ (rows : List (List ℚ)) (v : List ℚ) : List ℚ :=
  rows.map (fun r => dotQ r v)

/-- Row-major position of a homogeneous index pair. -/
def homIdx : Hom → Nat := Sum.elim (fun i => (i : Nat)) (fun _ => 3)

/-- The four homogeneous indices in row order. -/
def homIdxList : List Hom := [Sum.inl 0, Sum.inl 1, Sum.inl 2, Sum.inr ()]

/-- Interpret a flat 16-element buffer as a 4x4 matrix. -/
def toMat4 (d : List ℚ) : Mat4 := fun i j => d.getD (homIdx i * 4 + homIdx j) 0

/-- Flatten a 4x4 matrix back to a row-major buffer. -/
def flat4 (M : Mat4) : List ℚ :=
  (homIdxList.map (fun i => homIdxList.map (fun j => M i j))).flatten

/-- Modelled from the spec: the shape contract of the missing
`invert_transform` — it fails with an invalid-argument error when the input
is not a 4x4 matrix, and otherwise computes the structure-exploiting
inverse.  The error is the result of the call, so no partial result is
produced. -/
def invert_transform_nd (A : NDArray) : Except String NDArray :=
  if A.shape = [4, 4] then
    Except.ok ⟨[4, 4], flat4 (invert_transform (toMat4 A.data))⟩
  else Except.error "transformation must be a 4x4 matrix"

/-- Modelled from the spec: the missing `transform` applies a homogeneous
transform to a single homogeneous 4-vector or row-wise to a 2D array of
homogeneous 4-vectors, and fails with an invalid-argument error on any
other point shape.  The error is the result of the call, so no partial
result is produced. -/
def transform_nd (A2B P : NDArray) : Except String NDArray :=
  match P.shape with
  | [n] =>
      if n = 4 then Except.ok ⟨[4], matVecQ (chunkRows 4 A2B.data) P.data⟩
      else Except.error "point must be a homogeneous 4-vector"
  | [m, n] =>
      if n = 4 then
        Except.ok ⟨[m, 4],
          ((chunkRows 4 P.data).map (matVecQ (chunkRows 4 A2B.data))).flatten⟩
      else Except.error "rows must be homogeneous 4-vectors"
  | _ => Except.error "cannot transform array of this rank"

/-- C3: `invert_transform` fails exactly on non-4x4 inputs (for instance the
3x3 identity) and `transform` fails exactly when the point argument is
neither a 4-vector nor a 2D array of 4-vectors (for instance a rank-3 array
of shape (2,2,4)); in the Except embedding an error result carries no
partial value. -/
theorem invalid_shape_errors (A2B A P : NDArray) :
    ((invert_transform_nd A).isOk = false ↔ A.shape ≠ [4, 4]) ∧
    ((transform_nd A2B P).isOk = false ↔
      P.shape ≠ [4] ∧ ∀ m, P.shape ≠ [m, 4]) ∧
    (invert_transform_nd ⟨[3, 3], [1, 0, 0, 0, 1, 0, 0, 0, 1]⟩).isOk = false ∧
    (transform_nd A2B ⟨[2, 2, 4], List.replicate 16 0⟩).isOk = false := by
  refine ⟨?_, ?_, by simp [invert_transform_nd, Except.isOk, Except.toBool],
    by simp [transform_nd, Except.isOk, Except.toBool]⟩
  · unfold invert_transform_nd
    split <;> simp_all [Except.isOk, Except.toBool]
  · obtain ⟨sh, d⟩ := P
    match sh with
    | [] => simp [transform_nd, Except.isOk, Except.toBool]
    | [a] =>
        by_cases ha : a = 4 <;>
          simp [transform_nd, Except.isOk, Except.toBool, ha]
    | [a, b] =>
        by_cases hb : b = 4
        · subst hb
          simp [transform_nd, Except.isOk, Except.toBool]
        · simp [transform_nd, Except.isOk, Except.toBool, hb]
    | a :: b :: c :: t => simp [transform_nd, Except.isOk, Except.toBool]

lemma matVecQ_length (rows : List (List ℚ)) (v : List ℚ) :
    (matVecQ rows v).length = rows.length := by
  simp [matVecQ]

/-- Splitting a concatenation of rows of length n recovers the rows. -/
lemma chunkRows_flatten (n : Nat) (hn : 0 < n) :
    ∀ L : List (List ℚ), (∀ r ∈ L, r.length = n) → chunkRows n L.flatten = L := by
  intro L
  induction L with
  | nil => intro _; rw [chunkRows]; simp
  | cons r L ih =>
      intro h
      have hr : r.length = n := h r (by simp)
      have hrne : r ++ L.flatten ≠ [] := by
        have : 0 < r.length := hr ▸ hn
        cases r with
        | nil => simp at this
        | cons a t => simp
      rw [List.flatten_cons, chunkRows]
      rw [dif_neg (by push_neg; exact ⟨hrne, hn.ne'⟩)]
      rw [← hr, List.take_left, List.drop_left, hr]
      rw [ih (fun s hs => h s (by simp [hs]))]

/-- Each chunk list has the expected number of rows. -/
lemma chunkRows_length (n : Nat) (hn : 0 < n) :
    ∀ (k : Nat) (xs : List ℚ), xs.length = n * k → (chunkRows n xs).length = k := by
  intro k
  induction k with
  | zero =>
      intro xs hx
      have : xs = [] := List.eq_nil_of_length_eq_zero (by omega)
      subst this
      rw [chunkRows]
      simp
  | succ k ih =>
      intro xs hx
      have hne : xs ≠ [] := by
        intro h0
        subst h0
        simp at hx
        omega
      rw [chunkRows, dif_neg (by push_neg; exact ⟨hne, hn.ne'⟩)]
      have : (xs.drop n).length = n * k := by
        simp only [List.length_drop, hx]
        have : n * (k + 1) = n * k + n := by ring
        omega
      simp [ih (xs.drop n) this]

/-- C4: transforming a 2D batch of homogeneous 4-vectors succeeds, keeps the
batch shape, and its rows are exactly the results of transforming each row
individually; a single 4-vector in yields a single 4-vector out. -/
theorem transform_batch_rowwise (A2B P : NDArray) (m : Nat)
    (hA : A2B.data.length = 16) (hP : P.shape = [m, 4]) :
    (∃ out : NDArray, transform_nd A2B P = Except.ok out ∧ out.shape = [m, 4] ∧
      chunkRows 4 out.data =
        (chunkRows 4 P.data).map (fun row => matVecQ (chunkRows 4 A2B.data) row) ∧
      ∀ row : List ℚ, transform_nd A2B ⟨[4], row⟩ =
        Except.ok ⟨[4], matVecQ (chunkRows 4 A2B.data) row⟩) ∧
    (∀ v : NDArray, v.shape = [4] →
      transform_nd A2B v =
        Except.ok ⟨[4], matVecQ (chunkRows 4 A2B.data) v.data⟩) := by
  have hrows : (chunkRows 4 A2B.data).length = 4 :=
    chunkRows_length 4 (by norm_num) 4 A2B.data (by omega)
  constructor
  · obtain ⟨sh, d⟩ := P
    simp only at hP
    subst hP
    refine ⟨⟨[m, 4], ((chunkRows 4 d).map (matVecQ (chunkRows 4 A2B.data))).flatten⟩,
      by simp [transform_nd], rfl, ?_, ?_⟩
    · rw [chunkRows_flatten 4 (by norm_num)]
      intro r hr
      simp only [List.mem_map] at hr
      obtain ⟨row, _, hrow⟩ := hr
      rw [← hrow, matVecQ_length, hrows]
    · intro row
      simp [transform_nd]
  · intro v hv
    obtain ⟨sh, d⟩ := v
    simp only at hv
    subst hv
    simp [transform_nd]

theorem transform_batch_rowwise_witness :
    ((⟨[4, 4], [1, 0, 0, 0, 0, 1, 0, 0, 0, 0, 1, 0, 0, 0, 0, 1]⟩ : NDArray).data.length = 16) ∧
    (∃ out : NDArray,
      transform_nd ⟨[4, 4], [1, 0, 0, 0, 0, 1, 0, 0, 0, 0, 1, 0, 0, 0, 0, 1]⟩
          ⟨[2, 4], [1, 2, 3, 1, 2, 3, 4, 1]⟩ = Except.ok out ∧
        out.shape = [2, 4] ∧
        chunkRows 4 out.data =
          (chunkRows 4 ((⟨[2, 4], [1, 2, 3, 1, 2, 3, 4, 1]⟩ : NDArray).data)).map
            (fun row =>
              matVecQ (chunkRows 4
                ((⟨[4, 4], [1, 0, 0, 0, 0, 1, 0, 0, 0, 0, 1, 0, 0, 0, 0, 1]⟩ : NDArray).data))
                row) ∧
        ∀ row : List ℚ,
          transform_nd ⟨[4, 4], [1, 0, 0, 0, 0, 1, 0, 0, 0, 0, 1, 0, 0, 0, 0, 1]⟩
              ⟨[4], row⟩ =
            Except.ok ⟨[4], matVecQ (chunkRows 4
              ((⟨[4, 4], [1, 0, 0, 0, 0, 1, 0, 0, 0, 0, 1, 0, 0, 0, 0, 1]⟩ : NDArray).data))
              row⟩) :=
  ⟨by decide,
    (transform_batch_rowwise ⟨[4, 4], [1, 0, 0, 0, 0, 1, 0, 0, 0, 0, 1, 0, 0, 0, 0, 1]⟩
      ⟨[2, 4], [1, 2, 3, 1, 2, 3, 4, 1]⟩ 2 (by decide) rfl).1⟩

end Pytransform

namespace Rotations

abbrev V4 := Fin 4 → ℚ

/-- The approximate-array-equality primitive
(numpy.testing.assert_array_almost_equal) on 4-vectors: succeeds when every
component differs by less than the tolerance. -/
def almostEqualV4 (tol : ℚ) (a b : V4) : Bool :=
  decide (∀ i : Fin 4, |a i - b i| < tol)

/-- The approximate-equality primitive on 3x3 matrices. -/
def almostEqualM3 (tol : ℚ) (A B : Matrix (Fin 3) (Fin 3) ℚ) : Bool :=
  decide (∀ i j : Fin 3, |A i j - B i j| < tol)

/-- The approximate-equality primitive on scalars. -/
def almostEqualQ (tol a b : ℚ) : Bool := decide (|a - b| < tol)

/-- `assert_quaternion_equal` from pytransform3d/rotations/_testing.py: try
the direct comparison and, if it raises, compare against the negated second
quaternion.  The Bool result is true when the call completes without
raising. -/
def assert_quaternion_equal (tol : ℚ) (q1 q2 : V4) : Bool :=
  almostEqualV4 tol q1 q2 || almostEqualV4 tol q1 (-q2)

/-- `assert_rotation_matrix` from pytransform3d/rotations/_testing.py:
check R·Rᵀ against the identity and det R against 1, both within
tolerance.  The Bool result is true when the call completes without
raising. -/
def assert_rotation_matrix (tol : ℚ) (R : Matrix (Fin 3) (Fin 3) ℚ) : Bool :=
  almostEqualM3 tol (R * Rᵀ) 1 && almostEqualQ tol R.det 1

/-- C5: `assert_quaternion_equal` raises exactly when the first quaternion is
approximately equal neither to the second nor to its negation, and it never
raises when comparing a quaternion with its own negation. -/
theorem assert_quaternion_equal_spec (tol : ℚ) (q1 q2 : V4) (htol : 0 < tol) :
    (assert_quaternion_equal tol q1 q2 = false ↔
      almostEqualV4 tol q1 q2 = false ∧ almostEqualV4 tol q1 (-q2) = false) ∧
    assert_quaternion_equal tol q1 (-q1) = true := by
  constructor
  · simp [assert_quaternion_equal]
  · have hself : almostEqualV4 tol q1 q1 = true := by
      simp [almostEqualV4, htol]
    show (almostEqualV4 tol q1 (-q1) || almostEqualV4 tol q1 (-(-q1))) = true
    rw [neg_neg, hself, Bool.or_true]

theorem assert_quaternion_equal_spec_witness :
    (0 : ℚ) < 1 ∧
    ((assert_quaternion_equal 1 ![1, 0, 0, 0] ![0, 1, 0, 0] = false ↔
      almostEqualV4 1 ![1, 0, 0, 0] ![0, 1, 0, 0] = false ∧
        almostEqualV4 1 ![1, 0, 0, 0] (-![0, 1, 0, 0]) = false) ∧
     assert_quaternion_equal 1 ![1, 0, 0, 0] (-![1, 0, 0, 0]) = true) :=
  ⟨by norm_num, assert_quaternion_equal_spec 1 ![1, 0, 0, 0] ![0, 1, 0, 0] (by norm_num)⟩

/-- C10: `assert_quaternion_equal` performs no unit-norm validation: it
accepts any 4-vector compared with itself (zero and non-unit quaternions
included), and success depends only on componentwise approximate equality
with the second argument or its negation. -/
theorem assert_quaternion_equal_no_validation (tol : ℚ) (q q1 q2 : V4)
    (htol : 0 < tol) :
    assert_quaternion_equal tol q q = true ∧
    (assert_quaternion_equal tol q1 q2 = true ↔
      almostEqualV4 tol q1 q2 = true ∨ almostEqualV4 tol q1 (-q2) = true) := by
  constructor
  · have : almostEqualV4 tol q q = true := by simp [almostEqualV4, htol]
    simp [assert_quaternion_equal, this]
  · simp [assert_quaternion_equal]

theorem assert_quaternion_equal_no_validation_witness :
    (0 : ℚ) < 1 ∧
    (assert_quaternion_equal 1 (fun _ => 0) (fun _ => 0) = true ∧
     (assert_quaternion_equal 1 ![5, 0, 0, 0] ![0, 5, 0, 0] = true ↔
       almostEqualV4 1 ![5, 0, 0, 0] ![0, 5, 0, 0] = true ∨
         almostEqualV4 1 ![5, 0, 0, 0] (-![0, 5, 0, 0]) = true)) :=
  ⟨by norm_num,
    assert_quaternion_equal_no_validation 1 (fun _ => 0) ![5, 0, 0, 0] ![0, 5, 0, 0]
      (by norm_num)⟩

/-- C8: `assert_rotation_matrix` raises exactly when orthogonality within
tolerance or unit determinant within tolerance fails, and in particular it
raises on every orthogonal reflection (determinant -1) at any realistic
tolerance. -/
theorem assert_rotation_matrix_spec (tol : ℚ) (R : Matrix (Fin 3) (Fin 3) ℚ) :
    (assert_rotation_matrix tol R = false ↔
      almostEqualM3 tol (R * Rᵀ) 1 = false ∨ almostEqualQ tol R.det 1 = false) ∧
    (R * Rᵀ = 1 → R.det = -1 → tol ≤ 2 → assert_rotation_matrix tol R = false) := by
  constructor
  · cases h1 : almostEqualM3 tol (R * Rᵀ) 1 <;>
      cases h2 : almostEqualQ tol R.det 1 <;>
        simp [assert_rotation_matrix, h1, h2]
  · intro _ hdet htol
    have : almostEqualQ tol R.det 1 = false := by
      simp only [almostEqualQ, hdet, decide_eq_false_iff_not, not_lt]
      calc tol ≤ 2 := htol
        _ = |(-1 : ℚ) - 1| := by norm_num
    simp [assert_rotation_matrix, this]

theorem assert_rotation_matrix_spec_witness :
    (!![1, 0, 0; 0, 1, 0; 0, 0, -1] * (!![1, 0, 0; 0, 1, 0; 0, 0, -1] :
      Matrix (Fin 3) (Fin 3) ℚ)ᵀ = 1) ∧
    (!![1, 0, 0; 0, 1, 0; 0, 0, -1] : Matrix (Fin 3) (Fin 3) ℚ).det = -1 ∧
    (1 : ℚ) ≤ 2 ∧
    assert_rotation_matrix 1 !![1, 0, 0; 0, 1, 0; 0, 0, -1] = false := by
  have h1 : !![1, 0, 0; 0, 1, 0; 0, 0, -1] * (!![1, 0, 0; 0, 1, 0; 0, 0, -1] :
      Matrix (Fin 3) (Fin 3) ℚ)ᵀ = 1 := by
    ext i j
    fin_cases i <;> fin_cases j <;>
      simp [Matrix.mul_apply, Fin.sum_univ_three, Matrix.transpose_apply,
        Matrix.one_apply, Matrix.vecHead, Matrix.vecTail]
  have h2 : (!![1, 0, 0; 0, 1, 0; 0, 0, -1] : Matrix (Fin 3) (Fin 3) ℚ).det = -1 := by
    simp [Matrix.det_fin_three]
  exact ⟨h1, h2, by norm_num,
    (assert_rotation_matrix_spec 1 !![1, 0, 0; 0, 1, 0; 0, 0, -1]).2 h1 h2 (by norm_num)⟩

end Rotations

namespace RotationsR

open Real

abbrev V4R := Fin 4 → ℝ

abbrev V3R := Fin 3 → ℝ

/-- numpy.sign: -1 for negatives, 0 for zero, 1 for positives. -/
noncomputable def npSign (x : ℝ) : ℝ := if x < 0 then -1 else if x = 0 then 0 else 1

/-- np.any(np.sign(a1) != np.sign(a2)) on 4-vectors. -/
def signsDiffer4 (a b : V4R) : Prop := ∃ i : Fin 4, npSign (a i) ≠ npSign (b i)

/-- any(np.sign(a1) != np.sign(a2)) on 3-vectors. -/
def signsDiffer3 (a b : V3R) : Prop := ∃ i : Fin 3, npSign (a i) ≠ npSign (b i)

/-- The approximate-array-equality primitive on real 4-vectors. -/
def almostEqual4 (tol : ℝ) (a b : V4R) : Prop := ∀ i, |a i - b i| < tol

/-- The approximate-array-equality primitive on real 3-vectors. -/
def almostEqual3 (tol : ℝ) (a b : V3R) : Prop := ∀ i, |a i - b i| < tol

/-- Floored modulo on reals (np.mod). -/
noncomputable def fmod (x m : ℝ) : ℝ := x - m * ⌊x / m⌋

/-- Modelled from the spec: the angle wrap used by the missing normalization
helpers (pytransform3d.rotations._utils is not under src/) — wrap an angle
into the canonical range (-π, π]. -/
noncomputable def norm_angle (a : ℝ) : ℝ := π - fmod (π - a) (2 * π)

/-- Euclidean norm of a 3-vector. -/
noncomputable def cnorm (a : V3R) : ℝ := Real.sqrt ((a 0) ^ 2 + (a 1) ^ 2 + (a 2) ^ 2)

/-- Append an angle to an axis, giving an axis-angle 4-vector. -/
def aug (u : V3R) (θ : ℝ) : V4R :=
  fun i => if h : (i : ℕ) < 3 then u ⟨i, h⟩ else θ

/-- The axis part of an axis-angle 4-vector. -/
def axisOf (a : V4R) : V3R := fun i => a ⟨i, by omega⟩

/-- Modelled from the spec: the missing `norm_axis_angle` — renormalize the
axis to unit length and wrap the angle into the canonical range, flipping
axis and angle together when the wrapped angle is negative so the angle
lands in [0, π]. -/
noncomputable def norm_axis_angle (a : V4R) : V4R :=
  let n := cnorm (axisOf a)
  let θ := norm_angle (a 3)
  if θ < 0 then aug (fun i => -(a ⟨i, by omega⟩ / n)) (-θ)
  else aug (fun i => a ⟨i, by omega⟩ / n) θ

open Classical in
/-- `assert_axis_angle_equal` from pytransform3d/rotations/_testing.py:
negate the first representation when the raw sign patterns disagree, then
normalize both and compare componentwise within tolerance.  The Prop holds
when the call completes without raising. -/
noncomputable def assert_axis_angle_equal (tol : ℝ) (a1 a2 : V4R) : Prop :=
  almostEqual4 tol
    (norm_axis_angle (if signsDiffer4 a1 a2 then -a1 else a1))
    (norm_axis_angle a2)

/-- Modelled from the spec: the missing `norm_compact_axis_angle` — reduce
the vector to the canonical magnitude range: unit direction scaled by the
wrapped angle (in compact form, negating axis and angle together leaves the
vector unchanged). -/
noncomputable def norm_compact_axis_angle (a : V3R) : V3R :=
  fun i => a i / cnorm a * norm_angle (cnorm a)

open Classical in
/-- `assert_compact_axis_angle_equal` from
pytransform3d/rotations/_testing.py: compute both angle magnitudes, negate
the first vector only when both magnitudes equal π exactly and the sign
patterns disagree, then normalize both and compare within tolerance. -/
noncomputable def assert_compact_axis_angle_equal (tol : ℝ) (a1 a2 : V3R) : Prop :=
  almostEqual3 tol
    (norm_compact_axis_angle
      (if |cnorm a1| = π ∧ |cnorm a2| = π ∧ signsDiffer3 a1 a2 then -a1 else a1))
    (norm_compact_axis_angle a2)

lemma npSign_eq_neg_iff (x : ℝ) : npSign x = npSign (-x) ↔ x = 0 := by
  rcases lt_trichotomy x 0 with h | h | h
  · simp only [npSign, if_pos h, if_neg (not_lt.mpr (by linarith : (0 : ℝ) ≤ -x)),
      if_neg (by linarith : ¬(-x = 0))]
    constructor
    · intro hc; norm_num at hc
    · intro hc; exact absurd hc (ne_of_lt h)
  · simp [npSign, h]
  · simp only [npSign, if_neg (not_lt.mpr h.le), if_neg (ne_of_gt h),
      if_pos (by linarith : -x < 0)]
    constructor
    · intro hc; norm_num at hc
    · intro hc; exact absurd hc (ne_of_gt h)

lemma fmod_self_pos (m : ℝ) (hm : m ≠ 0) : fmod m m = 0 := by
  simp [fmod, div_self hm]

lemma fmod_zero_left (m : ℝ) : fmod 0 m = 0 := by
  simp [fmod]

lemma norm_angle_pi : norm_angle π = π := by
  simp [norm_angle, fmod_zero_left]

lemma norm_angle_neg_pi : norm_angle (-π) = π := by
  have h2 : (2 : ℝ) * π ≠ 0 := by positivity
  have : π - -π = 2 * π := by ring
  rw [norm_angle, this, fmod_self_pos _ h2, sub_zero]

lemma aug_apply_mk3 (u : V3R) (θ : ℝ) (i : Fin 3) (h : (i : ℕ) < 4) :
    aug u θ ⟨i, h⟩ = u i := by
  simp [aug, i.isLt]

lemma aug_apply_3 (u : V3R) (θ : ℝ) : aug u θ 3 = θ := by
  have h3 : ((3 : Fin 4) : ℕ) = 3 := rfl
  simp [aug, h3]

lemma axisOf_aug (u : V3R) (θ : ℝ) : axisOf (aug u θ) = u := by
  funext i
  exact aug_apply_mk3 u θ i (by omega)

lemma neg_aug (u : V3R) (θ : ℝ) : -aug u θ = aug (-u) (-θ) := by
  funext i
  by_cases hi : (i : ℕ) < 3 <;> simp [aug, hi]

/-- C6: `assert_axis_angle_equal` negates the first argument exactly when
the raw sign patterns disagree, then compares the normalized
representations; consequently it accepts an axis-angle against itself,
against its full negation, and against the (-axis, π) representation at an
exact half-turn. -/
theorem assert_axis_angle_equal_spec (tol : ℝ) (a1 a2 a : V4R) (u : V3R)
    (htol : 0 < tol) (hu : u ≠ 0) :
    (signsDiffer4 a1 a2 →
      (assert_axis_angle_equal tol a1 a2 ↔
        almostEqual4 tol (norm_axis_angle (-a1)) (norm_axis_angle a2))) ∧
    (¬signsDiffer4 a1 a2 →
      (assert_axis_angle_equal tol a1 a2 ↔
        almostEqual4 tol (norm_axis_angle a1) (norm_axis_angle a2))) ∧
    assert_axis_angle_equal tol a a ∧
    assert_axis_angle_equal tol a (-a) ∧
    assert_axis_angle_equal tol (aug u π) (aug (-u) π) := by
  have hrefl : ∀ v : V4R, almostEqual4 tol v v := by
    intro v i
    simpa using htol
  refine ⟨?_, ?_, ?_, ?_, ?_⟩
  · intro h
    simp only [assert_axis_angle_equal, if_pos h]
  · intro h
    simp only [assert_axis_angle_equal, if_neg h]
  · have hns : ¬signsDiffer4 a a := by
      rintro ⟨i, hi⟩
      exact hi rfl
    simp only [assert_axis_angle_equal, if_neg hns]
    exact hrefl _
  · by_cases hsd : signsDiffer4 a (-a)
    · simp only [assert_axis_angle_equal, if_pos hsd]
      exact hrefl _
    · have hz : -a = a := by
        funext i
        have hi : ¬npSign (a i) ≠ npSign (-a i) := fun hc => hsd ⟨i, hc⟩
        have : npSign (a i) = npSign (-(a i)) := by
          simpa using not_not.mp hi
        have := (npSign_eq_neg_iff (a i)).mp this
        simp [this]
      simp only [assert_axis_angle_equal, if_neg hsd, hz]
      exact hrefl _
  · have hsd : signsDiffer4 (aug u π) (aug (-u) π) := by
      have : ∃ j : Fin 3, u j ≠ 0 := by
        by_contra hc
        push_neg at hc
        exact hu (funext hc)
      obtain ⟨j, hj⟩ := this
      refine ⟨⟨j, by omega⟩, ?_⟩
      rw [aug_apply_mk3, aug_apply_mk3]
      intro hc
      exact hj ((npSign_eq_neg_iff (u j)).mp (by simpa using hc))
    simp only [assert_axis_angle_equal, if_pos hsd, neg_aug]
    have hkey : norm_axis_angle (aug (-u) (-π)) = norm_axis_angle (aug (-u) π) := by
      unfold norm_axis_angle
      simp only [aug_apply_3, axisOf_aug, norm_angle_neg_pi, norm_angle_pi,
        aug_apply_mk3]
    rw [hkey]
    exact hrefl _

theorem assert_axis_angle_equal_spec_witness :
    (0 : ℝ) < 1 ∧ (fun _ : Fin 3 => (1 : ℝ)) ≠ 0 ∧
    assert_axis_angle_equal 1
      (aug (fun _ => 1) π) (aug (-(fun _ : Fin 3 => (1 : ℝ))) π) := by
  have hu : (fun _ : Fin 3 => (1 : ℝ)) ≠ 0 := by
    intro h
    have := congrFun h 0
    norm_num at this
  exact ⟨by norm_num, hu,
    (assert_axis_angle_equal_spec 1 (fun _ => 0) (fun _ => 0) (fun _ => 0)
      (fun _ => 1) (by norm_num) hu).2.2.2.2⟩

/-- C7: `assert_compact_axis_angle_equal` negates the first vector before
normalization exactly when both norms equal π by exact comparison and the
sign patterns disagree; in every other case both vectors are normalized
and compared without negation. -/
theorem assert_compact_axis_angle_equal_spec (tol : ℝ) (a1 a2 : V3R) :
    ((|cnorm a1| = π ∧ |cnorm a2| = π ∧ signsDiffer3 a1 a2) →
      (assert_compact_axis_angle_equal tol a1 a2 ↔
        almostEqual3 tol (norm_compact_axis_angle (-a1))
          (norm_compact_axis_angle a2))) ∧
    (¬(|cnorm a1| = π ∧ |cnorm a2| = π ∧ signsDiffer3 a1 a2) →
      (assert_compact_axis_angle_equal tol a1 a2 ↔
        almostEqual3 tol (norm_compact_axis_angle a1)
          (norm_compact_axis_angle a2))) := by
  constructor
  · intro h
    simp only [assert_compact_axis_angle_equal, if_pos h]
  · intro h
    simp only [assert_compact_axis_angle_equal, if_neg h]

theorem assert_compact_axis_angle_equal_spec_witness :
    ¬(|cnorm (fun _ : Fin 3 => (0 : ℝ))| = π ∧
        |cnorm (fun _ : Fin 3 => (0 : ℝ))| = π ∧
        signsDiffer3 (fun _ => 0) (fun _ => 0)) ∧
    (assert_compact_axis_angle_equal 1 (fun _ => 0) (fun _ => 0) ↔
      almostEqual3 1 (norm_compact_axis_angle (fun _ => 0))
        (norm_compact_axis_angle (fun _ => 0))) := by
  have hnc : ¬(|cnorm (fun _ : Fin 3 => (0 : ℝ))| = π ∧
      |cnorm (fun _ : Fin 3 => (0 : ℝ))| = π ∧
      signsDiffer3 (fun _ => 0) (fun _ => 0)) := by
    rintro ⟨h1, -, -⟩
    have hz : cnorm (fun _ : Fin 3 => (0 : ℝ)) = 0 := by
      simp [cnorm]
    rw [hz] at h1
    simp at h1
    exact Real.pi_ne_zero h1.symm
  exact ⟨hnc, (assert_compact_axis_angle_equal_spec 1 (fun _ => 0) (fun _ => 0)).2 hnc⟩

/-- The approximate-equality primitive on real 3x3 matrices. -/
def almostEqualM3R (tol : ℝ) (A B : Matrix (Fin 3) (Fin 3) ℝ) : Prop :=
  ∀ i j : Fin 3, |A i j - B i j| < tol

/-- Basic rotation about the x-axis. -/
noncomputable def Rx (α : ℝ) : Matrix (Fin 3) (Fin 3) ℝ :=
  !![1, 0, 0; 0, Real.cos α, -Real.sin α; 0, Real.sin α, Real.cos α]

/-- Basic rotation about the y-axis. -/
noncomputable def Ry (β : ℝ) : Matrix (Fin 3) (Fin 3) ℝ :=
  !![Real.cos β, 0, Real.sin β; 0, 1, 0; -Real.sin β, 0, Real.cos β]

/-- Basic rotation about the z-axis. -/
noncomputable def Rz (γ : ℝ) : Matrix (Fin 3) (Fin 3) ℝ :=
  !![Real.cos γ, -Real.sin γ, 0; Real.sin γ, Real.cos γ, 0; 0, 0, 1]

/-- Modelled from the spec: `matrix_from_euler_xyz` from the missing
conversions module — the rotation matrix of intrinsic rotations about the
x-, y'- and z''-axes. -/
noncomputable def matrix_from_euler_xyz (e : V3R) : Matrix (Fin 3) (Fin 3) ℝ :=
  Rx (e 0) * Ry (e 1) * Rz (e 2)

/-- Modelled from the spec: `matrix_from_euler_zyx` from the missing
conversions module — the rotation matrix of intrinsic rotations about the
z-, y'- and x''-axes. -/
noncomputable def matrix_from_euler_zyx (e : V3R) : Matrix (Fin 3) (Fin 3) ℝ :=
  Rz (e 0) * Ry (e 1) * Rx (e 2)

/-- The observable outcome of calling one of the deprecated assertion
helpers: the warnings it emitted and whether it completed without
raising. -/
structure AssertCall where
  warnings : List String
  passes : Prop

/-- `assert_euler_xyz_equal` from pytransform3d/rotations/_testing.py: warn
about the coming removal, convert both triples with the xyz convention and
compare the matrices within tolerance. -/
noncomputable def assert_euler_xyz_equal (tol : ℝ) (e1 e2 : V3R) : AssertCall :=
  ⟨["assert_euler_xyz_equal will be removed in version 2.0.0"],
    almostEqualM3R tol (matrix_from_euler_xyz e1) (matrix_from_euler_xyz e2)⟩

/-- `assert_euler_zyx_equal` from pytransform3d/rotations/_testing.py: warn
about the coming removal, convert both triples with the zyx convention and
compare the matrices within tolerance. -/
noncomputable def assert_euler_zyx_equal (tol : ℝ) (e1 e2 : V3R) : AssertCall :=
  ⟨["assert_euler_zyx_equal will be removed in version 2.0.0"],
    almostEqualM3R tol (matrix_from_euler_zyx e1) (matrix_from_euler_zyx e2)⟩

/-- C9: both deprecated Euler comparison helpers warn on every call, decide
equality by converting each triple to the matching rotation matrix and
comparing within tolerance, and complete normally whenever the matrices are
approximately equal. -/
theorem assert_euler_equal_spec (tol : ℝ) (e1 e2 : V3R) :
    (assert_euler_xyz_equal tol e1 e2).warnings ≠ [] ∧
    ((assert_euler_xyz_equal tol e1 e2).passes ↔
      almostEqualM3R tol (matrix_from_euler_xyz e1) (matrix_from_euler_xyz e2)) ∧
    (assert_euler_zyx_equal tol e1 e2).warnings ≠ [] ∧
    ((assert_euler_zyx_equal tol e1 e2).passes ↔
      almostEqualM3R tol (matrix_from_euler_zyx e1) (matrix_from_euler_zyx e2)) ∧
    (almostEqualM3R tol (matrix_from_euler_xyz e1) (matrix_from_euler_xyz e2) →
      (assert_euler_xyz_equal tol e1 e2).passes) ∧
    (almostEqualM3R tol (matrix_from_euler_zyx e1) (matrix_from_euler_zyx e2) →
      (assert_euler_zyx_equal tol e1 e2).passes) :=
  ⟨by simp [assert_euler_xyz_equal], Iff.rfl,
   by simp [assert_euler_zyx_equal], Iff.rfl, id, id⟩

theorem assert_euler_equal_spec_witness :
    almostEqualM3R 1 (matrix_from_euler_xyz (fun _ => 0))
      (matrix_from_euler_xyz (fun _ => 0)) ∧
    (assert_euler_xyz_equal 1 (fun _ => 0) (fun _ => 0)).passes ∧
    (assert_euler_xyz_equal 1 (fun _ => 0) (fun _ => 0)).warnings ≠ [] := by
  have happrox : almostEqualM3R 1 (matrix_from_euler_xyz (fun _ => 0))
      (matrix_from_euler_xyz (fun _ => 0)) := by
    intro i j
    norm_num
  exact ⟨happrox,
    (assert_euler_equal_spec 1 (fun _ => 0) (fun _ => 0)).2.2.2.2.1 happrox,
    (assert_euler_equal_spec 1 (fun _ => 0) (fun _ => 0)).1⟩

end RotationsR
